import Mathlib

/-!
Verification of the Nowack_Lab laboratory-automation repository.

Shallow embedding of the code under verification:
* `src/Procedures/array_tune.py` — the `ArrayTune` SQUID auto-tuning loop
  (`tune_squid`, `lock_squid`, `adjust`, `tune_squid_setup`);
* `src/Instruments/nidaq.py` — `NIDAQ.accel_function`, `NIDAQ.sweep`,
  `NIDAQ.send_receive`;
* `src/Utilities/dataset.py` — `Dataset.get`, `Dataset._writetoh5`,
  `Dataset._appenddatah5`, `Dataset.sanitize`.

Modelling conventions, used throughout:
* Python floats are modelled as `ℚ` (all the arithmetic the claims touch is
  exact: sums, differences, products, divisions and comparisons);
* readings taken from the physical hardware (`np.mean` of an acquired SAA
  trace, `daq.monitor`) are an oracle `SquidArray → ℚ`: a function giving the
  measured mean as a function of the current state of the SQUID-array
  electronics;
* HDF5 paths are modelled as their lists of keys (h5py forbids `/` inside a
  single link name, so splitting a path string on `/` and joining the keys
  back are mutually inverse);
* calls to `input(...)` are modelled by passing the user's reply (or the
  stream of replies) as an explicit argument.
-/

/-! ## `src/Procedures/array_tune.py`: the SQUID-array state

The fields are the attributes of the `squidarray` instrument that
`ArrayTune.tune_squid_setup`, `ArrayTune.lock_squid` and `ArrayTune.adjust`
read or write.  `resets` counts the calls to `squidarray.reset()`; `locked`
records the argument of the last `squidarray.lock(...)` call. -/
structure SquidArray where
  A_flux : ℚ
  S_flux : ℚ
  S_bias : ℚ
  S_flux_lim : ℚ
  locked : String
  testSignal : String
  testInput : String
  sensitivity : String
  resets : ℕ
deriving DecidableEq

/-- `squidarray.reset()`: a reset of the SAA electronics.  Its only effect on
the modelled state is to bump the reset counter. -/
def SquidArray.reset (sa : SquidArray) : SquidArray :=
  { sa with resets := sa.resets + 1 }

/-- The two DC flux attributes `ArrayTune.adjust` is called with
(`"A_flux"` in `tune_squid`, `"S_flux"` in `lock_squid`). -/
inductive FluxAttr where
  | A_flux
  | S_flux
deriving DecidableEq

/-- `getattr(self.squidarray, attr)` for the two flux attributes. -/
def SquidArray.getAttr (sa : SquidArray) : FluxAttr → ℚ
  | .A_flux => sa.A_flux
  | .S_flux => sa.S_flux

/-- `setattr(self.squidarray, attr, v)` for the two flux attributes. -/
def SquidArray.setAttr (sa : SquidArray) : FluxAttr → ℚ → SquidArray
  | .A_flux, v => { sa with A_flux := v }
  | .S_flux, v => { sa with S_flux := v }

/-- The parameters of an `ArrayTune` measurement
(`ArrayTune.__init__`, `src/Procedures/array_tune.py` lines 18–39). -/
structure ArrayTune where
  squid_bias : ℚ
  conversion : ℚ
  squid_tol : ℚ
  aflux_tol : ℚ
  sflux_offset : ℚ
  aflux_offset : ℚ

/-- `ArrayTune.__init__`: the constructor stores the given parameters and
fixes `self.conversion = 10` ("Conversion between mod current and voltage"). -/
def ArrayTune.init (squid_bias : ℚ) (squid_tol : ℚ) (aflux_tol : ℚ)
    (sflux_offset : ℚ) (aflux_offset : ℚ) : ArrayTune :=
  { squid_bias := squid_bias
    conversion := 10
    squid_tol := squid_tol
    aflux_tol := aflux_tol
    sflux_offset := sflux_offset
    aflux_offset := aflux_offset }

/-- `ArrayTune.adjust(attr, error)` (lines 95–106): reads the attribute, and
* if `value + error * conversion < 0`, forces a jump by setting
  `value + 50`;
* else if `value + error * conversion > 150`, sets `0`;
* else directly corrects the offset, setting `value + conversion * error`;
then calls `squidarray.reset()`. -/
def ArrayTune.adjust (T : ArrayTune) (sa : SquidArray) (attr : FluxAttr)
    (error : ℚ) : SquidArray :=
  let value := sa.getAttr attr
  (if value + error * T.conversion < 0 then
    sa.setAttr attr (value + 50)
  else if value + error * T.conversion > 150 then
    sa.setAttr attr 0
  else
    sa.setAttr attr (value + T.conversion * error)).reset

/-- `ArrayTune.tune_squid_setup` (lines 52–61): configures the SAA for SQUID
tuning and resets it. -/
def ArrayTune.tune_squid_setup (T : ArrayTune) (sa : SquidArray) : SquidArray :=
  ({ sa with
      locked := "Array"
      S_flux_lim := 150
      S_flux := 0
      testInput := "S_flux"
      testSignal := "On"
      S_bias := T.squid_bias
      sensitivity := "High" }).reset

/-- The state changes `ArrayTune.lock_squid` performs before monitoring
(lines 79–81): `squidarray.lock("Squid")`, `testSignal = "Off"`, `reset()`. -/
def ArrayTune.lock_squid_pre (sa : SquidArray) : SquidArray :=
  ({ sa with locked := "Squid", testSignal := "Off" }).reset

/-- `ArrayTune.lock_squid(attempts)` (lines 77–93).  `mL` is the measurement
oracle for `np.mean(daq.monitor(["saa"], ...)["saa"])`.  Besides the Boolean
result and the final state, the embedding returns (as its ghost third
component) how many times this loop called `ArrayTune.adjust`. -/
def ArrayTune.lock_squid (T : ArrayTune) (mL : SquidArray → ℚ)
    (sa : SquidArray) (attempts : ℕ) : Bool × SquidArray × ℕ :=
  let sa1 := ArrayTune.lock_squid_pre sa
  let error := mL sa1 - T.sflux_offset
  if |error| < T.squid_tol then
    (true, sa1, 0)
  else
    match attempts with
    | 0 => (false, sa1, 0)
    | a + 1 =>
      let sa2 := T.adjust sa1 .S_flux error
      let r := T.lock_squid mL sa2 a
      (r.1, r.2.1, r.2.2 + 1)

/-- `ArrayTune.tune_squid(attempts)` (lines 63–75).  `mT` is the measurement
oracle for `np.mean(self.char[-1])` (the mean of the acquired `"saa"` trace as
a function of the array state); `mL` is passed on to `lock_squid`, which the
success branch calls with its default `attempts = 5`.  The ghost third
component counts this loop's own calls to `ArrayTune.adjust` (the `"A_flux"`
corrections). -/
def ArrayTune.tune_squid (T : ArrayTune) (mT mL : SquidArray → ℚ)
    (sa : SquidArray) (attempts : ℕ) : Bool × SquidArray × ℕ :=
  let sa1 := T.tune_squid_setup sa
  let error := mT sa1 - T.aflux_offset
  if |error| < T.aflux_tol then
    let r := T.lock_squid mL sa1 5
    (r.1, r.2.1, 0)
  else
    match attempts with
    | 0 => (false, sa1, 0)
    | a + 1 =>
      let sa2 := T.adjust sa1 .A_flux error
      let r := T.tune_squid mT mL sa2 a
      (r.1, r.2.1, r.2.2 + 1)

/-- The state of the SQUID array just before the `k`-th array-flux tolerance
check of `ArrayTune.tune_squid` (the loop re-runs `tune_squid_setup` at the
top of every recursive call, so the `k+1`-st state is `tune_squid_setup` of
the adjusted `k`-th state). -/
def ArrayTune.tuneState (T : ArrayTune) (mT : SquidArray → ℚ)
    (sa : SquidArray) : ℕ → SquidArray
  | 0 => T.tune_squid_setup sa
  | k + 1 =>
    let s := T.tuneState mT sa k
    T.tune_squid_setup (T.adjust s .A_flux (mT s - T.aflux_offset))

/-- The array-flux error at the `k`-th tolerance check of `tune_squid` is
within `aflux_tol`. -/
def ArrayTune.tuneOkAt (T : ArrayTune) (mT : SquidArray → ℚ)
    (sa : SquidArray) (k : ℕ) : Prop :=
  |mT (T.tuneState mT sa k) - T.aflux_offset| < T.aflux_tol

/-- The state of the SQUID array just before the `k`-th SQUID-flux tolerance
check of `ArrayTune.lock_squid`. -/
def ArrayTune.lockState (T : ArrayTune) (mL : SquidArray → ℚ)
    (sa : SquidArray) : ℕ → SquidArray
  | 0 => ArrayTune.lock_squid_pre sa
  | k + 1 =>
    let s := T.lockState mL sa k
    ArrayTune.lock_squid_pre (T.adjust s .S_flux (mL s - T.sflux_offset))

/-- The SQUID-flux error at the `k`-th tolerance check of `lock_squid` is
within `squid_tol`. -/
def ArrayTune.lockOkAt (T : ArrayTune) (mL : SquidArray → ℚ)
    (sa : SquidArray) (k : ℕ) : Prop :=
  |mL (T.lockState mL sa k) - T.sflux_offset| < T.squid_tol

instance (T : ArrayTune) (mT : SquidArray → ℚ) (sa : SquidArray) (k : ℕ) :
    Decidable (T.tuneOkAt mT sa k) := by
  unfold ArrayTune.tuneOkAt; infer_instance

instance (T : ArrayTune) (mL : SquidArray → ℚ) (sa : SquidArray) (k : ℕ) :
    Decidable (T.lockOkAt mL sa k) := by
  unfold ArrayTune.lockOkAt; infer_instance

/-! ## `src/Instruments/nidaq.py` -/

/-- `np.linspace(a, b, n)` over exact rationals: `n` evenly spaced points
from `a` to `b` inclusive (`[a]` for `n = 1`, `[]` for `n = 0`). -/
def linspace (a b : ℚ) (n : ℕ) : List ℚ :=
  if n = 0 then []
  else if n = 1 then [a]
  else (List.range n).map fun (i : ℕ) => a + (b - a) * (i : ℚ) / ((n : ℚ) - 1)

/-- `NIDAQ.accel_function(start, end, numpts)` (lines 69–77): an `x**2`-like
ramp.  If `start == end` it returns `[start]*numpts*2`; otherwise it glues the
two quadratic half-ramps `part1` and `part2[1:]`.  The Python arithmetic
`(x-start)**2/((end-start)/2)**2*(end-start)/2` parses left-associatively,
which the Lean expression mirrors. -/
def NIDAQ.accel_function (start stop : ℚ) (numpts : ℕ) : List ℚ :=
  if start = stop then
    List.replicate (numpts * 2) start
  else
    let mid := (stop - start) / 2 + start
    let part1arg := linspace start mid numpts
    let part2arg := linspace mid stop numpts
    let part1 := part1arg.map fun x =>
      start + (x - start) ^ 2 / ((stop - start) / 2) ^ 2 * (stop - start) / 2
    let part2 := part2arg.map fun x =>
      stop - (x - stop) ^ 2 / ((stop - start) / 2) ^ 2 * (stop - start) / 2
    part1 ++ part2.drop 1

/-- The per-channel loop of `NIDAQ.sweep` (lines 167–175, with the default
`accel=False`): for each output channel `k`, in order, build
`V[k] = list(np.linspace(Vstart[k], Vend[k], numsteps))` and then raise
`Exception('NIDAQ out of range!')` if `max(abs(Vstart[k]), abs(Vend[k])) > 10`.
The channels' start/end dicts are modelled as functions on the key list. -/
def NIDAQ.sweepLoop (Vstart Vend : String → ℚ) (numsteps : ℕ) :
    List String → Except String (List (String × List ℚ))
  | [] => .ok []
  | k :: rest =>
    let v := linspace (Vstart k) (Vend k) numsteps
    if max |Vstart k| |Vend k| > 10 then
      .error "NIDAQ out of range!"
    else
      match NIDAQ.sweepLoop Vstart Vend numsteps rest with
      | .error e => .error e
      | .ok vs => .ok ((k, v) :: vs)

/-- `NIDAQ.sweep` (lines 156–186, default `accel=False`), up to the hand-off
to the hardware: the per-channel loop either raises, or completes and only
then passes the whole voltage dict to `self.send_receive`.  The second
component is the hardware log: the list of data blocks handed to
`send_receive`, empty when the loop raised first. -/
def NIDAQ.sweep (keys : List String) (Vstart Vend : String → ℚ)
    (numsteps : ℕ) :
    Except String (List (String × List ℚ)) × List (List (String × List ℚ)) :=
  match NIDAQ.sweepLoop Vstart Vend numsteps keys with
  | .error e => (.error e, [])
  | .ok V => (.ok V, [V])

/-! ## `src/Utilities/dataset.py`: the HDF5 tree

An h5py file is a tree: every node is a dataset (whose contents the claims
treat as opaque, modelled `ℤ`) or a group holding an ordered list of uniquely
named children.  To keep recursion and induction structural the children list
is a mutual inductive rather than a nested `List`. -/

mutual
inductive H5 where
  | ds (v : ℤ)
  | grp (cs : H5Children)
deriving DecidableEq

inductive H5Children where
  | nil
  | cons (k : String) (t : H5) (rest : H5Children)
deriving DecidableEq
end

/-- Look a single link name up among a group's children (first match). -/
def H5Children.lookupKey : H5Children → String → Option H5
  | .nil, _ => none
  | .cons k t rest, q => if k = q then some t else rest.lookupKey q

/-- Replace the child at an existing link name (first match). -/
def H5Children.setKey : H5Children → String → H5 → H5Children
  | .nil, _, _ => .nil
  | .cons k t rest, q, t' =>
    if k = q then .cons k t' rest else .cons k t (rest.setKey q t')

/-- Add a child under a fresh link name (h5py keeps creation order). -/
def H5Children.appendKey : H5Children → String → H5 → H5Children
  | .nil, q, t' => .cons q t' .nil
  | .cons k t rest, q, t' => .cons k t (rest.appendKey q t')

/-- `f[path]` for a path already split into keys: descend link by link;
`none` is h5py's `KeyError`. -/
def H5.lookupKeys : H5 → List String → Option H5
  | t, [] => some t
  | .ds _, _ :: _ => none
  | .grp cs, k :: ks =>
    match cs.lookupKey k with
    | none => none
    | some c => c.lookupKeys ks

/-! The nested Python dictionary `datadict` that `Dataset.get` builds:
leaves hold the contents of datasets, inner nodes are the dicts created on
the way down. -/

mutual
inductive DTree where
  | leaf (v : ℤ)
  | node (cs : DChildren)
deriving DecidableEq

inductive DChildren where
  | nil
  | cons (k : String) (t : DTree) (rest : DChildren)
deriving DecidableEq
end

/-- Python dict lookup. -/
def DChildren.lookupKey : DChildren → String → Option DTree
  | .nil, _ => none
  | .cons k t rest, q => if k = q then some t else rest.lookupKey q

/-- Python dict item assignment: update the existing key in place, else
append the new key (insertion order). -/
def DChildren.setKey : DChildren → String → DTree → DChildren
  | .nil, q, t' => .cons q t' .nil
  | .cons k t rest, q, t' =>
    if k = q then .cons k t' rest else .cons k t (rest.setKey q t')

/-- The body of `Dataset.get._loaddict` (lines 24–39) for one visited dataset:
walk `datadict` along all keys but the last, creating nested dicts where a key
is missing, then set the last key to the dataset's contents.  A key that is
present but holds a leaf is descended into as if fresh; in an HDF5 file a
dataset's path is never a proper prefix of another object's, so the case never
arises. -/
def DChildren.loaddict : DChildren → List String → ℤ → DChildren
  | d, [], _ => d
  | d, [k], v => d.setKey k (.leaf v)
  | d, k :: k2 :: ks, v =>
    match d.lookupKey k with
    | some (.node cs) => d.setKey k (.node (cs.loaddict (k2 :: ks) v))
    | _ => d.setKey k (.node (DChildren.nil.loaddict (k2 :: ks) v))

mutual
/-- `f.visititems(...)` restricted to what `_loaddict` uses: the datasets of
the whole file, each with its path from the root, in recursive traversal
order (groups themselves are visited but `_loaddict` ignores them). -/
def H5.visitItems : H5 → List (List String × ℤ)
  | .ds _ => []
  | .grp cs => cs.visitList

def H5Children.visitList : H5Children → List (List String × ℤ)
  | .nil => []
  | .cons k t rest =>
    (match t with
     | .ds v => [([k], v)]
     | .grp cs => cs.visitList.map fun pv => (k :: pv.1, pv.2)) ++
    rest.visitList
end

/-- What `Dataset.get` returns: the contents of a dataset, or the built
`datadict`. -/
inductive GetResult where
  | data (v : ℤ)
  | dict (d : DChildren)
deriving DecidableEq

/-- `Dataset.get(path)` (lines 14–58, default `slice=False`): if `f[path]` is
a dataset, return its contents; if it is a group, apply `_loaddict` at every
item of **the whole file** (`f.visititems(_loaddict)`) and return the
accumulated `datadict`; `none` is the `KeyError` of `f[path]`. -/
def Dataset.get (f : H5) (path : List String) : Option GetResult :=
  match f.lookupKeys path with
  | none => none
  | some (.ds v) => some (.data v)
  | some (.grp _) =>
    some (.dict (f.visitItems.foldl (fun d pv => d.loaddict pv.1 pv.2) .nil))

mutual
/-- The claim's (and the docstring's) intended result of `Dataset.get` at a
group: a nested dictionary mirroring the structure of the subgroup at the
path, each leaf the contents of the corresponding dataset under it.  Stated
from the spec sentence, for comparison with `Dataset.get`. -/
def H5.mirror : H5 → DTree
  | .ds v => .leaf v
  | .grp cs => .node cs.mirrorChildren

def H5Children.mirrorChildren : H5Children → DChildren
  | .nil => .nil
  | .cons k t rest => .cons k t.mirror rest.mirrorChildren
end

/-- A fresh chain of groups ending in a dataset, as `create_dataset` builds
for the path components that do not exist yet. -/
def H5.freshChain : List String → ℤ → H5
  | [], v => .ds v
  | k :: ks, v => .grp (.cons k (H5.freshChain ks v) .nil)

/-- `f.create_dataset(path, data)`: create intermediate groups as needed and a
new dataset at the final key.  `none` models the h5py error when the final
path is already taken, when an intermediate key holds a dataset, or when the
path is degenerate. -/
def H5.createDataset : H5 → List String → ℤ → Option H5
  | .ds _, _, _ => none
  | .grp _, [], _ => none
  | .grp cs, [k], v =>
    match cs.lookupKey k with
    | some _ => none
    | none => some (.grp (cs.appendKey k (.ds v)))
  | .grp cs, k :: k2 :: ks, v =>
    match cs.lookupKey k with
    | some (.ds _) => none
    | some (.grp g) =>
      match (H5.grp g).createDataset (k2 :: ks) v with
      | none => none
      | some g' => some (.grp (cs.setKey k g'))
    | none => some (.grp (cs.appendKey k (H5.freshChain (k2 :: ks) v)))

/-- `Dataset._writetoh5(data, path)` (lines 89–114): if `f[path]` resolves
(an object of any kind already sits at `path`), close the file, `input(...)` a
new path and retry there; on `KeyError` create a fresh dataset at `path`.
`replies` is the stream of user answers to the prompt; the result carries the
written file and the path finally used, and is `none` if the replies run out
while the prompt repeats (the user never supplies a fresh path) or
`create_dataset` itself fails. -/
def Dataset.writetoh5 (f : H5) (path : List String) (v : ℤ)
    (replies : List (List String)) : Option (H5 × List String) :=
  match f.lookupKeys path with
  | some _ =>
    match replies with
    | [] => none
    | r :: rs => Dataset.writetoh5 f r v rs
  | none =>
    match f.createDataset path v with
    | none => none
    | some f' => some (f', path)

/-! ## `Dataset._appenddatah5` (lines 128–162)

Array elements are exact numbers or NaN; `np.isnan` is exact on them. -/

inductive NpVal where
  | nan
  | num (q : ℚ)
deriving DecidableEq

/-- `np.isnan` on one element. -/
def NpVal.isnan : NpVal → Bool
  | .nan => true
  | .num _ => false

/-- `dataset[slice]` for a one-dimensional contiguous slice
`slice(start, start+len)`. -/
def sliceGet (xs : List NpVal) (start len : ℕ) : List NpVal :=
  (xs.drop start).take len

/-- `dataset[slice] = arr` for the same slice. -/
def sliceSet (xs : List NpVal) (start : ℕ) (arr : List NpVal) : List NpVal :=
  xs.take start ++ arr ++ xs.drop (start + arr.length)

/-- The outcome of one `Dataset._appenddatah5` call, as seen at the dataset
`pathtowrite` of the **original** file: its contents afterwards, whether the
user was prompted, and whether the shape-mismatch exception was raised. -/
structure AppendOutcome where
  orig : List NpVal
  prompted : Bool
  raised : Bool
deriving DecidableEq

/-- `Dataset._appenddatah5(filename, numpyarray, pathtowrite, slice)`
(lines 128–162), for a 1-D dataset and slice:
* shape mismatch between `numpyarray` and `dataset[slice]` raises;
* if every element of `dataset[slice]` is NaN, write the slice, no prompt;
* otherwise prompt; reply `"OVERWRITE"` writes the slice;
* any other reply opens `'antioverwrite_' + filename` and tries
  `fao.create_dataset(pathtowrite, ...)` — `aoFresh` says whether that
  succeeds — and on success executes `f[pathtowrite][slice] = numpyarray`,
  which targets the original file `f` (not `fao`); on failure it recurses
  into the antioverwrite file, leaving the original dataset unchanged. -/
def Dataset.appenddatah5 (dataset arr : List NpVal) (start len : ℕ)
    (reply : String) (aoFresh : Bool) : AppendOutcome :=
  if arr.length ≠ (sliceGet dataset start len).length then
    { orig := dataset, prompted := false, raised := true }
  else if (sliceGet dataset start len).all NpVal.isnan then
    { orig := sliceSet dataset start arr, prompted := false, raised := false }
  else if reply = "OVERWRITE" then
    { orig := sliceSet dataset start arr, prompted := true, raised := false }
  else if aoFresh then
    { orig := sliceSet dataset start arr, prompted := true, raised := false }
  else
    { orig := dataset, prompted := true, raised := false }

/-! ## `NIDAQ.send_receive` (lines 108–154): the caller's data

Python lists and dicts are mutable heap objects; to state what
`send_receive` does to the caller's `orig_data` the heap is explicit: a store
of objects addressed by allocation index.  Every Python operation of the
data-handling part of `send_receive` is either a read, an allocation
(`copy(...)`, `list(d)`, `d + [...]`, a dict display) or an in-place update
(`data[ch] = d`). -/

inductive PyObj where
  | list (xs : List ℚ)
  | dict (entries : List (String × ℕ))
deriving DecidableEq

abbrev Store := List PyObj

/-- Allocate a fresh object, returning the new store and its address. -/
def Store.alloc (st : Store) (v : PyObj) : Store × ℕ :=
  (st ++ [v], st.length)

/-- Python dict lookup on the entry list of a dict object. -/
def lookupEntry : List (String × ℕ) → String → Option ℕ
  | [], _ => none
  | (k', r') :: rest, k => if k' = k then some r' else lookupEntry rest k

/-- Python dict item assignment on the entry list of a dict object. -/
def updateEntry : List (String × ℕ) → String → ℕ → List (String × ℕ)
  | [], k, r => [(k, r)]
  | (k', r') :: rest, k, r =>
    if k' = k then (k', r) :: rest else (k', r') :: updateEntry rest k r

/-- `chan_out`: either a scalar channel name or a list of channel names
(`np.isscalar(chan_out)` distinguishes the two in the Python). -/
inductive ChanOut where
  | scalar (ch : String)
  | many (chs : List String)

/-- The `for ch in chan_out` loop of `send_receive` (lines 127–135): for each
channel, read `d = data[ch]`, write `d[0]` to the hardware (an `IndexError`
on an empty list, modelled `none`), allocate `list(d)`, allocate
`d + [d[len(d)-1]]` (the duplicated final sample), store it back with
`data[ch] = d`, and record the channel's entry of `write_data`. -/
def NIDAQ.srLoop (st : Store) (dref : ℕ) :
    List String → Option (Store × List (String × List ℚ))
  | [] => some (st, [])
  | ch :: rest =>
    match st.get? dref with
    | some (.dict entries) =>
      match lookupEntry entries ch with
      | none => none
      | some r =>
        match st.get? r with
        | some (.list (x :: xs)) =>
          let c1 := st.alloc (.list (x :: xs))
          let d2 := (x :: xs) ++ [(x :: xs).getLast (List.cons_ne_nil x xs)]
          let c2 := c1.1.alloc (.list d2)
          let st3 := c2.1.set dref (.dict (updateEntry entries ch c2.2))
          match NIDAQ.srLoop st3 dref rest with
          | none => none
          | some (s', wd) => some (s', (ch, d2) :: wd)
        | _ => none
    | _ => none

/-- The data-handling part of `NIDAQ.send_receive(chan_out, orig_data)`
(lines 108–137, up to the hand-off of `write_data` to the DAQ task):
`data = copy(orig_data)` (a shallow copy: a fresh object with the same
contents), the scalar channel is wrapped into a fresh singleton dict, the
channel/data length check raises on mismatch, then the per-channel loop runs.
Returns the store afterwards, the address of the local `data` dict and
`write_data`; `none` models every raised exception. -/
def NIDAQ.send_receive (st : Store) (co : ChanOut) (orig : ℕ) :
    Option (Store × ℕ × List (String × List ℚ)) :=
  match st.get? orig with
  | none => none
  | some v =>
    let c1 := st.alloc v
    match co with
    | .scalar ch =>
      let c2 := c1.1.alloc (.dict [(ch, c1.2)])
      match NIDAQ.srLoop c2.1 c2.2 [ch] with
      | none => none
      | some (st', wd) => some (st', c2.2, wd)
    | .many chs =>
      match v with
      | .dict entries =>
        if chs.length ≠ entries.length then none
        else
          match NIDAQ.srLoop c1.1 c1.2 chs with
          | none => none
          | some (st', wd) => some (st', c1.2, wd)
      | .list _ => none

/-! ## `Dataset.sanitize` (lines 164–197)

The Python values `sanitize` distinguishes.  In
`allowedtypes = ['float','int','complex','uint']` the entries are *strings*,
so `type(data) in allowedtypes + allowednonnumpytypes` only ever matches the
genuine types `str, float, int, list` of `allowednonnumpytypes`; every other
non-numpy, non-dict object (a complex number, a bool, an arbitrary object)
falls through to the `str(data)` branch, carried here as its string
representation in `.other`.  A numpy array is carried as its dtype, whether
`np.array(data, dtype='float')` would succeed (`floatable`), and its string
representation; `str(...)` on the objects at hand always succeeds, so the
`except` prompt of the final branch is unreachable and not modelled. -/

inductive NpDtype where
  | float64
  | int64
  | complex128
  | uint64
  | object_
  | bool_
deriving DecidableEq

/-- `[np.dtype(a) for a in allowedtypes]`: the dtypes that pass through
unchanged (`np.dtype` of `'float'`, `'int'`, `'complex'`, `'uint'`). -/
def allowedDtypes : List NpDtype :=
  [.float64, .int64, .complex128, .uint64]

mutual
inductive PyData where
  | str (s : String)
  | float (q : ℚ)
  | int (n : ℤ)
  | plist (xs : PyList)
  | ndarray (dtype : NpDtype) (floatable : Bool) (text : String)
  | pdict (es : PyEntries)
  | other (text : String)
deriving DecidableEq

inductive PyList where
  | nil
  | cons (x : PyData) (rest : PyList)
deriving DecidableEq

inductive PyEntries where
  | nil
  | cons (k : String) (v : PyData) (rest : PyEntries)
deriving DecidableEq
end

mutual
/-- `Dataset.sanitize(data)` (lines 164–197):
* `str`, `float`, `int` and `list` values pass through unchanged;
* an ndarray of allowed dtype passes through; any other ndarray is converted
  with `np.array(data, dtype='float')` to a float64 array if possible, else
  (`ValueError`) replaced by `str(data)`;
* a dict is sanitized entrywise;
* everything else is replaced by `str(data)`. -/
def Dataset.sanitize : PyData → PyData
  | .str s => .str s
  | .float q => .float q
  | .int n => .int n
  | .plist xs => .plist xs
  | .ndarray dt fl text =>
    if dt ∈ allowedDtypes then .ndarray dt fl text
    else if fl then .ndarray .float64 true text
    else .str text
  | .pdict es => .pdict (Dataset.sanitizeEntries es)
  | .other text => .str text

/-- The `for key in data.keys()` loop of the dict branch of `sanitize`. -/
def Dataset.sanitizeEntries : PyEntries → PyEntries
  | .nil => .nil
  | .cons k v rest => .cons k (Dataset.sanitize v) (Dataset.sanitizeEntries rest)
end

mutual
/-- Structural proof that a second `sanitize` changes nothing: every branch
of `Dataset.sanitize` returns a value `sanitize` maps to itself. -/
def sanitize_idem_data : (d : PyData) →
    Dataset.sanitize (Dataset.sanitize d) = Dataset.sanitize d
  | .str _ => rfl
  | .float _ => rfl
  | .int _ => rfl
  | .plist _ => rfl
  | .ndarray dt fl text => by
    by_cases h : dt ∈ allowedDtypes
    · simp [Dataset.sanitize, h]
    · by_cases hf : fl
      · have h1 : Dataset.sanitize (.ndarray dt fl text) =
            .ndarray .float64 true text := by
          simp [Dataset.sanitize, h, hf]
        rw [h1]
        simp [Dataset.sanitize, allowedDtypes]
      · simp [Dataset.sanitize, h, hf]
  | .pdict es => by
    simp [Dataset.sanitize]
    exact sanitize_idem_entries es
  | .other _ => rfl

/-- The entrywise companion of `sanitize_idem_data`. -/
def sanitize_idem_entries : (es : PyEntries) →
    Dataset.sanitizeEntries (Dataset.sanitizeEntries es) = Dataset.sanitizeEntries es
  | .nil => rfl
  | .cons k v rest => by
    simp [Dataset.sanitizeEntries]
    exact ⟨sanitize_idem_data v, sanitize_idem_entries rest⟩
end

/-- Single-motive structural induction on a children list (the mutual
recursor of `H5Children` has several motives, which the `induction` tactic
cannot use directly). -/
def H5Children.inductionOn {motive : H5Children → Prop} (cs : H5Children)
    (nil : motive .nil)
    (cons : ∀ (k : String) (t : H5) (rest : H5Children),
      motive rest → motive (.cons k t rest)) : motive cs :=
  match cs with
  | .nil => nil
  | .cons k t rest => cons k t rest (rest.inductionOn nil cons)

/-! # Theorems -/

/-! ## `ArrayTune`: helper lemmas -/

theorem ArrayTune.lock_squid_count_le (T : ArrayTune) (mL : SquidArray → ℚ) :
    ∀ (n : ℕ) (sa : SquidArray), (T.lock_squid mL sa n).2.2 ≤ n := by
  intro n
  induction n with
  | zero =>
    intro sa
    simp only [ArrayTune.lock_squid]
    split
    · exact Nat.le_refl 0
    · exact Nat.le_refl 0
  | succ a ih =>
    intro sa
    simp only [ArrayTune.lock_squid]
    split
    · exact Nat.zero_le _
    · exact Nat.succ_le_succ (ih _)

theorem ArrayTune.tune_squid_count_le (T : ArrayTune) (mT mL : SquidArray → ℚ) :
    ∀ (n : ℕ) (sa : SquidArray), (T.tune_squid mT mL sa n).2.2 ≤ n := by
  intro n
  induction n with
  | zero =>
    intro sa
    simp only [ArrayTune.tune_squid]
    split
    · exact Nat.zero_le _
    · exact Nat.le_refl 0
  | succ a ih =>
    intro sa
    simp only [ArrayTune.tune_squid]
    split
    · exact Nat.zero_le _
    · exact Nat.succ_le_succ (ih _)

theorem ArrayTune.lockState_shift (T : ArrayTune) (mL : SquidArray → ℚ)
    (sa : SquidArray) :
    ∀ k, T.lockState mL
        (T.adjust (ArrayTune.lock_squid_pre sa) .S_flux
          (mL (ArrayTune.lock_squid_pre sa) - T.sflux_offset)) k =
      T.lockState mL sa (k + 1) := by
  intro k
  induction k with
  | zero => rfl
  | succ j ih => simp only [ArrayTune.lockState, ih]

theorem ArrayTune.tuneState_shift (T : ArrayTune) (mT : SquidArray → ℚ)
    (sa : SquidArray) :
    ∀ k, T.tuneState mT
        (T.adjust (T.tune_squid_setup sa) .A_flux
          (mT (T.tune_squid_setup sa) - T.aflux_offset)) k =
      T.tuneState mT sa (k + 1) := by
  intro k
  induction k with
  | zero => rfl
  | succ j ih => simp only [ArrayTune.tuneState, ih]

theorem ArrayTune.lock_squid_true_iff (T : ArrayTune) (mL : SquidArray → ℚ) :
    ∀ (n : ℕ) (sa : SquidArray),
      (T.lock_squid mL sa n).1 = true ↔ ∃ k ≤ n, T.lockOkAt mL sa k := by
  intro n
  induction n with
  | zero =>
    intro sa
    simp only [ArrayTune.lock_squid]
    split
    · rename_i hok
      simp only [true_iff]
      exact ⟨0, Nat.le_refl 0, hok⟩
    · rename_i hok
      constructor
      · intro h; exact absurd h (by simp)
      · rintro ⟨k, hk, hok'⟩
        interval_cases k
        exact absurd hok' hok
  | succ a ih =>
    intro sa
    simp only [ArrayTune.lock_squid]
    split
    · rename_i hok
      simp only [true_iff]
      exact ⟨0, Nat.zero_le _, hok⟩
    · rename_i hok
      rw [ih]
      constructor
      · rintro ⟨k, hk, hok'⟩
        refine ⟨k + 1, Nat.succ_le_succ hk, ?_⟩
        unfold ArrayTune.lockOkAt at hok' ⊢
        rw [ArrayTune.lockState_shift] at hok'
        exact hok'
      · rintro ⟨k, hk, hok'⟩
        match k with
        | 0 => exact absurd hok' hok
        | j + 1 =>
          refine ⟨j, Nat.lt_succ_iff.mp hk, ?_⟩
          unfold ArrayTune.lockOkAt at hok' ⊢
          rw [ArrayTune.lockState_shift]
          exact hok'

theorem ArrayTune.tune_squid_true_exists (T : ArrayTune)
    (mT mL : SquidArray → ℚ) :
    ∀ (n : ℕ) (sa : SquidArray), (T.tune_squid mT mL sa n).1 = true →
      ∃ k ≤ n, T.tuneOkAt mT sa k ∧
        (T.lock_squid mL (T.tuneState mT sa k) 5).1 = true := by
  intro n
  induction n with
  | zero =>
    intro sa h
    simp only [ArrayTune.tune_squid] at h
    split at h
    · rename_i hok
      exact ⟨0, Nat.le_refl 0, hok, h⟩
    · exact absurd h (by simp)
  | succ a ih =>
    intro sa h
    simp only [ArrayTune.tune_squid] at h
    split at h
    · rename_i hok
      exact ⟨0, Nat.zero_le _, hok, h⟩
    · obtain ⟨k, hk, hok', hl⟩ := ih _ h
      rw [ArrayTune.tuneState_shift] at hl
      unfold ArrayTune.tuneOkAt at hok'
      rw [ArrayTune.tuneState_shift] at hok'
      exact ⟨k + 1, Nat.succ_le_succ hk, hok', hl⟩

/-- C1: for every number of attempts `n`, `ArrayTune.tune_squid(attempts=n)`
and `ArrayTune.lock_squid(attempts=n)` terminate with a Boolean (the
embedding is total, mirroring the strictly decreasing `attempts` counter of
the Python recursion), and each loop performs at most `n` of its own
flux-adjustment iterations — calls to `ArrayTune.adjust` (`tune_squid`'s
`A_flux` corrections, `lock_squid`'s `S_flux` corrections; the ghost third
component of each embedding counts them).  With the default `attempts = 5`
each control loop therefore performs at most 5 correction iterations. -/
theorem spec_C1 (T : ArrayTune) (mT mL : SquidArray → ℚ) (sa : SquidArray)
    (n : ℕ) :
    (T.tune_squid mT mL sa n).2.2 ≤ n ∧ (T.lock_squid mL sa n).2.2 ≤ n :=
  ⟨T.tune_squid_count_le mT mL n sa, T.lock_squid_count_le mL n sa⟩

/-- C2: `tune_squid` returns `True` only if at some attempt `k ≤ n` the
measured array-flux error satisfied `|mean(saa) - aflux_offset| < aflux_tol`
and the `lock_squid()` call made from that state (with its default 5
attempts) returned `True`; `lock_squid` returns `True` exactly when some
attempt `k ≤ n` has `|mean(saa) - sflux_offset| < squid_tol`; and when the
respective tolerance is never met within the allowed attempts the loop
returns `False`. -/
theorem spec_C2 (T : ArrayTune) (mT mL : SquidArray → ℚ) (sa : SquidArray)
    (n : ℕ) :
    ((T.tune_squid mT mL sa n).1 = true →
      ∃ k ≤ n, T.tuneOkAt mT sa k ∧
        (T.lock_squid mL (T.tuneState mT sa k) 5).1 = true) ∧
    ((T.lock_squid mL sa n).1 = true ↔ ∃ k ≤ n, T.lockOkAt mL sa k) ∧
    ((∀ k ≤ n, ¬ T.tuneOkAt mT sa k) → (T.tune_squid mT mL sa n).1 = false) ∧
    ((∀ k ≤ n, ¬ T.lockOkAt mL sa k) → (T.lock_squid mL sa n).1 = false) := by
  refine ⟨T.tune_squid_true_exists mT mL n sa, T.lock_squid_true_iff mL n sa,
    ?_, ?_⟩
  · intro hnone
    cases hres : (T.tune_squid mT mL sa n).1 with
    | false => rfl
    | true =>
      obtain ⟨k, hk, hok, -⟩ := T.tune_squid_true_exists mT mL n sa hres
      exact absurd hok (hnone k hk)
  · intro hnone
    cases hres : (T.lock_squid mL sa n).1 with
    | false => rfl
    | true =>
      obtain ⟨k, hk, hok⟩ := (T.lock_squid_true_iff mL n sa).mp hres
      exact absurd hok (hnone k hk)

theorem ArrayTune.adjust_resets (T : ArrayTune) (sa : SquidArray)
    (attr : FluxAttr) (e : ℚ) :
    (T.adjust sa attr e).resets = sa.resets + 1 := by
  simp only [ArrayTune.adjust]
  split
  · cases attr <;> rfl
  · split
    · cases attr <;> rfl
    · cases attr <;> rfl

/-- C3 counterexample: the correction step is *not* always
`v + 10 * e`.  With the constructor's parameters (`conversion = 10`), an
attribute value `v = 0` and error `e = -1`, `v + 10 * e = -10 < 0`, so
`adjust` takes its first branch and sets the attribute to `v + 50 = 50`,
not to `v + 10 * e = -10`. -/
theorem spec_C3_counterexample :
    (((ArrayTune.init 0 (1/10) (1/100) 0 0).adjust
        ⟨0, 0, 0, 0, "", "", "", "", 0⟩ .A_flux (-1)).getAttr .A_flux = 50) ∧
    ((50 : ℚ) ≠ 0 + 10 * (-1)) := by
  constructor
  · norm_num [ArrayTune.adjust, ArrayTune.init, SquidArray.getAttr,
      SquidArray.setAttr, SquidArray.reset]
  · norm_num

/-- C3 amended: for an `ArrayTune` built by the constructor (which fixes the
conversion factor at 10), `adjust(attr, e)` sets the attribute from `v` to
`v + 10 * e` when the target `v + 10 * e` lies within `[0, 150]`; when
`v + 10 * e < 0` it instead sets `v + 50` (forcing a jump), and when
`v + 10 * e > 150` it sets `0`; in every branch it then resets the SQUID
array. -/
theorem spec_C3 (sb stol atol so ao : ℚ) (sa : SquidArray) (attr : FluxAttr)
    (e : ℚ) :
    (0 ≤ sa.getAttr attr + 10 * e → sa.getAttr attr + 10 * e ≤ 150 →
      ((ArrayTune.init sb stol atol so ao).adjust sa attr e).getAttr attr =
        sa.getAttr attr + 10 * e) ∧
    (sa.getAttr attr + 10 * e < 0 →
      ((ArrayTune.init sb stol atol so ao).adjust sa attr e).getAttr attr =
        sa.getAttr attr + 50) ∧
    (150 < sa.getAttr attr + 10 * e →
      ((ArrayTune.init sb stol atol so ao).adjust sa attr e).getAttr attr =
        0) ∧
    ((ArrayTune.init sb stol atol so ao).adjust sa attr e).resets =
      sa.resets + 1 := by
  refine ⟨fun h0 h1 => ?_, fun hlt => ?_, fun hgt => ?_,
    ArrayTune.adjust_resets _ sa attr e⟩
  · cases attr with
    | A_flux =>
      simp only [SquidArray.getAttr] at h0 h1 ⊢
      have hn0 : ¬ (sa.A_flux + e * 10 < 0) := by
        rw [mul_comm e 10]; exact not_lt.mpr h0
      have hn1 : ¬ (sa.A_flux + e * 10 > 150) := by
        rw [gt_iff_lt, mul_comm e 10]; exact not_lt.mpr h1
      simp [ArrayTune.adjust, ArrayTune.init, SquidArray.getAttr,
        SquidArray.setAttr, SquidArray.reset, hn0, hn1]
    | S_flux =>
      simp only [SquidArray.getAttr] at h0 h1 ⊢
      have hn0 : ¬ (sa.S_flux + e * 10 < 0) := by
        rw [mul_comm e 10]; exact not_lt.mpr h0
      have hn1 : ¬ (sa.S_flux + e * 10 > 150) := by
        rw [gt_iff_lt, mul_comm e 10]; exact not_lt.mpr h1
      simp [ArrayTune.adjust, ArrayTune.init, SquidArray.getAttr,
        SquidArray.setAttr, SquidArray.reset, hn0, hn1]
  · cases attr with
    | A_flux =>
      simp only [SquidArray.getAttr] at hlt ⊢
      have hp : sa.A_flux + e * 10 < 0 := by rw [mul_comm e 10]; exact hlt
      simp [ArrayTune.adjust, ArrayTune.init, SquidArray.getAttr,
        SquidArray.setAttr, SquidArray.reset, hp]
    | S_flux =>
      simp only [SquidArray.getAttr] at hlt ⊢
      have hp : sa.S_flux + e * 10 < 0 := by rw [mul_comm e 10]; exact hlt
      simp [ArrayTune.adjust, ArrayTune.init, SquidArray.getAttr,
        SquidArray.setAttr, SquidArray.reset, hp]
  · cases attr with
    | A_flux =>
      simp only [SquidArray.getAttr] at hgt ⊢
      have hn0 : ¬ (sa.A_flux + e * 10 < 0) := by
        rw [mul_comm e 10]; linarith
      have hp1 : sa.A_flux + e * 10 > 150 := by
        rw [gt_iff_lt, mul_comm e 10]; exact hgt
      simp [ArrayTune.adjust, ArrayTune.init, SquidArray.getAttr,
        SquidArray.setAttr, SquidArray.reset, hn0, hp1]
    | S_flux =>
      simp only [SquidArray.getAttr] at hgt ⊢
      have hn0 : ¬ (sa.S_flux + e * 10 < 0) := by
        rw [mul_comm e 10]; linarith
      have hp1 : sa.S_flux + e * 10 > 150 := by
        rw [gt_iff_lt, mul_comm e 10]; exact hgt
      simp [ArrayTune.adjust, ArrayTune.init, SquidArray.getAttr,
        SquidArray.setAttr, SquidArray.reset, hn0, hp1]

/-- C4 (code bug): `Dataset.get` at a *group* path does not mirror the
subgroup at the path.  The group branch calls `f.visititems(_loaddict)` on
the whole file instead of on `f[path]`, so for the file
`{a: {x: 1}, b: {y: 2}}` and path `a` it returns the dictionary of the entire
file — keyed from the root, with top-level keys `a` and `b` — while the
docstring (lines 17–21) and the claim promise the dictionary mirroring just
the subgroup `{x: 1}` (its `mirrorChildren`).  The two results differ. -/
theorem spec_C4_bug :
    Dataset.get
        (.grp (.cons "a" (.grp (.cons "x" (.ds 1) .nil))
          (.cons "b" (.grp (.cons "y" (.ds 2) .nil)) .nil))) ["a"] =
      some (.dict (.cons "a" (.node (.cons "x" (.leaf 1) .nil))
        (.cons "b" (.node (.cons "y" (.leaf 2) .nil)) .nil))) ∧
    (H5Children.cons "x" (H5.ds 1) .nil).mirrorChildren =
      .cons "x" (.leaf 1) .nil ∧
    some (GetResult.dict (.cons "a" (.node (.cons "x" (.leaf 1) .nil))
        (.cons "b" (.node (.cons "y" (.leaf 2) .nil)) .nil))) ≠
      some (GetResult.dict (.cons "x" (.leaf 1) .nil)) := by
  refine ⟨rfl, rfl, ?_⟩
  decide

/-! ## `Dataset._writetoh5`: helper lemmas -/

theorem H5Children.lookupKey_appendKey_some (cs : H5Children) (k : String)
    (t : H5) (q : String) (c : H5) (h : cs.lookupKey q = some c) :
    (cs.appendKey k t).lookupKey q = some c := by
  induction cs using H5Children.inductionOn with
  | nil => simp [H5Children.lookupKey] at h
  | cons k' t' rest ih =>
    by_cases hq : k' = q
    · simp [H5Children.lookupKey, hq] at h
      simp [H5Children.appendKey, H5Children.lookupKey, hq, h]
    · simp [H5Children.lookupKey, hq] at h
      simp [H5Children.appendKey, H5Children.lookupKey, hq, ih h]

theorem H5Children.lookupKey_setKey_ne (cs : H5Children) (k : String)
    (t' : H5) (q : String) (h : q ≠ k) :
    (cs.setKey k t').lookupKey q = cs.lookupKey q := by
  induction cs using H5Children.inductionOn with
  | nil => simp [H5Children.setKey]
  | cons k' t'' rest ih =>
    by_cases hk : k' = k
    · subst hk
      simp [H5Children.setKey, H5Children.lookupKey, Ne.symm h]
    · by_cases hq : k' = q <;>
        simp [H5Children.setKey, H5Children.lookupKey, hk, hq, h, ih]

theorem H5Children.lookupKey_setKey_found (cs : H5Children) (k : String)
    (t' : H5) (c : H5) (h : cs.lookupKey k = some c) :
    (cs.setKey k t').lookupKey k = some t' := by
  induction cs using H5Children.inductionOn with
  | nil => simp [H5Children.lookupKey] at h
  | cons k' t'' rest ih =>
    by_cases hk : k' = k
    · simp [H5Children.setKey, H5Children.lookupKey, hk]
    · simp [H5Children.lookupKey, hk] at h
      simp [H5Children.setKey, H5Children.lookupKey, hk, ih h]

theorem H5.createDataset_fresh :
    ∀ (p : List String) (t : H5) (v : ℤ) (t' : H5),
      t.createDataset p v = some t' → t.lookupKeys p = none := by
  intro p
  induction p with
  | nil =>
    intro t v t' h
    cases t <;> simp [H5.createDataset] at h
  | cons k ks ih =>
    intro t v t' h
    cases t with
    | ds w => simp [H5.createDataset] at h
    | grp cs =>
      cases ks with
      | nil =>
        cases hl : cs.lookupKey k with
        | some c => simp [H5.createDataset, hl] at h
        | none => simp [H5.lookupKeys, hl]
      | cons k2 ks' =>
        cases hl : cs.lookupKey k with
        | none => simp [H5.lookupKeys, hl]
        | some c =>
          cases c with
          | ds w => simp [H5.createDataset, hl] at h
          | grp g =>
            simp only [H5.createDataset, hl] at h
            cases hrec : (H5.grp g).createDataset (k2 :: ks') v with
            | none => rw [hrec] at h; simp at h
            | some g' =>
              simp [H5.lookupKeys, hl]
              exact ih _ v g' hrec

theorem H5.createDataset_preserves_ds :
    ∀ (p : List String) (t : H5) (v : ℤ) (t' : H5),
      t.createDataset p v = some t' →
      ∀ (q : List String) (w : ℤ),
        t.lookupKeys q = some (.ds w) → t'.lookupKeys q = some (.ds w) := by
  intro p
  induction p with
  | nil =>
    intro t v t' h
    cases t <;> simp [H5.createDataset] at h
  | cons k ks ih =>
    intro t v t' h q w hq
    cases t with
    | ds u => simp [H5.createDataset] at h
    | grp cs =>
      cases ks with
      | nil =>
        cases hl : cs.lookupKey k with
        | some c => simp [H5.createDataset, hl] at h
        | none =>
          simp only [H5.createDataset, hl, Option.some.injEq] at h
          subst h
          cases q with
          | nil => simp [H5.lookupKeys] at hq ⊢
          | cons q0 qs =>
            cases hq0 : cs.lookupKey q0 with
            | none =>
              simp only [H5.lookupKeys, hq0] at hq
              exact Option.noConfusion hq
            | some c =>
              simp only [H5.lookupKeys, hq0] at hq
              simp only [H5.lookupKeys,
                H5Children.lookupKey_appendKey_some cs k (H5.ds v) q0 c hq0]
              exact hq
      | cons k2 ks' =>
        cases hl : cs.lookupKey k with
        | none =>
          simp only [H5.createDataset, hl, Option.some.injEq] at h
          subst h
          cases q with
          | nil => simp [H5.lookupKeys] at hq ⊢
          | cons q0 qs =>
            cases hq0 : cs.lookupKey q0 with
            | none =>
              simp only [H5.lookupKeys, hq0] at hq
              exact Option.noConfusion hq
            | some c =>
              simp only [H5.lookupKeys, hq0] at hq
              simp only [H5.lookupKeys,
                H5Children.lookupKey_appendKey_some cs k
                  (H5.freshChain (k2 :: ks') v) q0 c hq0]
              exact hq
        | some c =>
          cases c with
          | ds u => simp [H5.createDataset, hl] at h
          | grp g =>
            simp only [H5.createDataset, hl] at h
            cases hrec : (H5.grp g).createDataset (k2 :: ks') v with
            | none => rw [hrec] at h; simp at h
            | some g' =>
              rw [hrec] at h
              simp only [Option.some.injEq] at h
              subst h
              cases q with
              | nil => simp [H5.lookupKeys] at hq ⊢
              | cons q0 qs =>
                by_cases hqk : q0 = k
                · subst hqk
                  simp only [H5.lookupKeys, hl] at hq
                  simp only [H5.lookupKeys,
                    H5Children.lookupKey_setKey_found cs q0 g' (H5.grp g) hl]
                  exact ih (H5.grp g) v g' hrec qs w hq
                · simp only [H5.lookupKeys] at hq
                  simp only [H5.lookupKeys,
                    H5Children.lookupKey_setKey_ne cs k g' q0 hqk]
                  exact hq

/-- C5: `Dataset._writetoh5` never overwrites.  Whenever the call returns a
written file: (1) the path finally used held no object of any kind in the
original file — `create_dataset` only ever fires at a path not yet present;
(2) every dataset already in the file is still there, with the same
contents; (3) whenever an object already sits at the requested path, the
call prompts and retries at the user's replied path. -/
theorem spec_C5 (f : H5) (path : List String) (v : ℤ)
    (replies : List (List String)) (f' : H5) (used : List String)
    (h : Dataset.writetoh5 f path v replies = some (f', used)) :
    f.lookupKeys used = none ∧
    (∀ (q : List String) (w : ℤ),
      f.lookupKeys q = some (.ds w) → f'.lookupKeys q = some (.ds w)) ∧
    (∀ (r : List String) (rs : List (List String)), replies = r :: rs →
      f.lookupKeys path ≠ none →
      Dataset.writetoh5 f path v replies = Dataset.writetoh5 f r v rs) := by
  induction replies generalizing path with
  | nil =>
    cases hl : f.lookupKeys path with
    | some c =>
      rw [Dataset.writetoh5, hl] at h
      exact Option.noConfusion h
    | none =>
      rw [Dataset.writetoh5, hl] at h
      cases hc : f.createDataset path v with
      | none => rw [hc] at h; exact Option.noConfusion h
      | some f'' =>
        rw [hc] at h
        simp only [Option.some.injEq, Prod.mk.injEq] at h
        obtain ⟨rfl, rfl⟩ := h
        refine ⟨H5.createDataset_fresh path f v _ hc,
          fun q w => H5.createDataset_preserves_ds path f v _ hc q w,
          fun r rs hrs => absurd hrs (by simp)⟩
  | cons r0 rs0 ih =>
    cases hl : f.lookupKeys path with
    | some c =>
      rw [Dataset.writetoh5, hl] at h
      obtain ⟨h1, h2, -⟩ := ih r0 h
      refine ⟨h1, h2, fun r rs hrs _ => ?_⟩
      injection hrs with hr1 hr2
      subst hr1
      subst hr2
      rw [Dataset.writetoh5, hl]
    | none =>
      rw [Dataset.writetoh5, hl] at h
      cases hc : f.createDataset path v with
      | none => rw [hc] at h; exact Option.noConfusion h
      | some f'' =>
        rw [hc] at h
        simp only [Option.some.injEq, Prod.mk.injEq] at h
        obtain ⟨rfl, rfl⟩ := h
        refine ⟨H5.createDataset_fresh path f v _ hc,
          fun q w => H5.createDataset_preserves_ds path f v _ hc q w,
          fun r rs hrs hne => absurd rfl hne⟩

/-- C5 witness: the file `{x: 1}`, requested path `x` (already taken), one
reply `y`: the call retries at `y`, creates the dataset there, and the
original dataset `x` survives. -/
theorem spec_C5_witness :
    (H5.grp (.cons "x" (.ds 1) .nil)).lookupKeys ["y"] = none ∧
    (∀ (q : List String) (w : ℤ),
      (H5.grp (.cons "x" (.ds 1) .nil)).lookupKeys q = some (.ds w) →
      (H5.grp (.cons "x" (.ds 1) (.cons "y" (.ds 2) .nil))).lookupKeys q =
        some (.ds w)) ∧
    (∀ (r : List String) (rs : List (List String)), [["y"]] = r :: rs →
      (H5.grp (.cons "x" (.ds 1) .nil)).lookupKeys ["x"] ≠ none →
      Dataset.writetoh5 (H5.grp (.cons "x" (.ds 1) .nil)) ["x"] 2 [["y"]] =
        Dataset.writetoh5 (H5.grp (.cons "x" (.ds 1) .nil)) r 2 rs) :=
  spec_C5 (H5.grp (.cons "x" (.ds 1) .nil)) ["x"] 2 [["y"]]
    (H5.grp (.cons "x" (.ds 1) (.cons "y" (.ds 2) .nil))) ["y"] (by decide)

/-- C6 (code bug): the two confirmed halves and the broken one.
(1) When every element of the stored slice is NaN, `_appenddatah5` writes
without prompting.  (2) With a stored non-NaN value and reply `"OVERWRITE"`,
it prompts and overwrites.  (3) **Bug**: with a stored non-NaN value and the
reply `"n"` (not `"OVERWRITE"`), the antioverwrite branch runs
`f[pathtowrite][slice] = numpyarray` — `f` is the *original* file, not
`fao` — so the original dataset is overwritten anyway (here `[1]`
becomes `[2]`), although the prompt text promises the data goes to the
`antioverwrite` file. -/
theorem spec_C6_bug :
    Dataset.appenddatah5 [NpVal.nan] [NpVal.num 2] 0 1 "n" true =
      { orig := [NpVal.num 2], prompted := false, raised := false } ∧
    Dataset.appenddatah5 [NpVal.num 1] [NpVal.num 2] 0 1 "OVERWRITE" true =
      { orig := [NpVal.num 2], prompted := true, raised := false } ∧
    ("n" ≠ "OVERWRITE" ∧
      Dataset.appenddatah5 [NpVal.num 1] [NpVal.num 2] 0 1 "n" true =
        { orig := [NpVal.num 2], prompted := true, raised := false }) := by
  refine ⟨?_, ?_, by decide, ?_⟩ <;>
    norm_num [Dataset.appenddatah5, sliceGet, sliceSet, NpVal.isnan]

/-! ## `NIDAQ.sweep`: helper lemmas -/

theorem NIDAQ.sweepLoop_error_msg (Vs Ve : String → ℚ) (n : ℕ) :
    ∀ (keys : List String) (e : String),
      NIDAQ.sweepLoop Vs Ve n keys = .error e → e = "NIDAQ out of range!" := by
  intro keys
  induction keys with
  | nil => intro e h; simp [NIDAQ.sweepLoop] at h
  | cons k rest ih =>
    intro e h
    by_cases hk : max |Vs k| |Ve k| > 10
    · simp only [NIDAQ.sweepLoop, if_pos hk, Except.error.injEq] at h
      exact h.symm
    · simp only [NIDAQ.sweepLoop, if_neg hk] at h
      cases hr : NIDAQ.sweepLoop Vs Ve n rest with
      | error e' =>
        rw [hr] at h
        simp only [Except.error.injEq] at h
        subst h
        exact ih e' hr
      | ok vs =>
        rw [hr] at h
        exact Except.noConfusion h

theorem NIDAQ.sweepLoop_error_iff (Vs Ve : String → ℚ) (n : ℕ) :
    ∀ keys : List String,
      NIDAQ.sweepLoop Vs Ve n keys = .error "NIDAQ out of range!" ↔
        ∃ k ∈ keys, 10 < max |Vs k| |Ve k| := by
  intro keys
  induction keys with
  | nil => simp [NIDAQ.sweepLoop]
  | cons k rest ih =>
    by_cases hk : max |Vs k| |Ve k| > 10
    · simp only [NIDAQ.sweepLoop, if_pos hk, List.mem_cons]
      constructor
      · intro
        exact ⟨k, Or.inl rfl, hk⟩
      · intro
        trivial
    · simp only [NIDAQ.sweepLoop, if_neg hk, List.mem_cons]
      cases hr : NIDAQ.sweepLoop Vs Ve n rest with
      | error e =>
        rw [hr] at ih
        constructor
        · intro hm
          obtain ⟨k', hk', hgt⟩ := ih.mp hm
          exact ⟨k', Or.inr hk', hgt⟩
        · rintro ⟨k', hk' | hk', hgt⟩
          · subst hk'; exact absurd hgt hk
          · exact ih.mpr ⟨k', hk', hgt⟩
      | ok vs =>
        rw [hr] at ih
        constructor
        · intro hm; exact Except.noConfusion hm
        · rintro ⟨k', hk' | hk', hgt⟩
          · subst hk'; exact absurd hgt hk
          · exact Except.noConfusion (ih.mpr ⟨k', hk', hgt⟩)

/-- C7: the per-channel loop of `NIDAQ.sweep` raises
`Exception('NIDAQ out of range!')` exactly when some output channel has
`max(|Vstart|, |Vend|) > 10` — in particular no exception when every
channel's start and end voltages lie within ±10 V inclusive — and exactly in
that case nothing is ever handed to `send_receive` (the hardware log stays
empty): the raise precedes any data reaching the hardware. -/
theorem spec_C7 (keys : List String) (Vstart Vend : String → ℚ)
    (numsteps : ℕ) :
    ((NIDAQ.sweep keys Vstart Vend numsteps).1 =
        .error "NIDAQ out of range!" ↔
      ∃ k ∈ keys, 10 < max |Vstart k| |Vend k|) ∧
    ((NIDAQ.sweep keys Vstart Vend numsteps).2 = [] ↔
      ∃ k ∈ keys, 10 < max |Vstart k| |Vend k|) := by
  cases hr : NIDAQ.sweepLoop Vstart Vend numsteps keys with
  | error e =>
    have he := NIDAQ.sweepLoop_error_msg Vstart Vend numsteps keys e hr
    subst he
    have hex := (NIDAQ.sweepLoop_error_iff Vstart Vend numsteps keys).mp hr
    simp only [NIDAQ.sweep, hr]
    exact ⟨⟨fun _ => hex, fun _ => trivial⟩, ⟨fun _ => hex, fun _ => trivial⟩⟩
  | ok vs =>
    have hnex : ¬ ∃ k ∈ keys, 10 < max |Vstart k| |Vend k| := by
      intro hex
      have := (NIDAQ.sweepLoop_error_iff Vstart Vend numsteps keys).mpr hex
      rw [hr] at this
      exact Except.noConfusion this
    simp only [NIDAQ.sweep, hr]
    constructor
    · exact ⟨fun hm => Except.noConfusion hm, fun hex => absurd hex hnex⟩
    · exact ⟨fun hm => List.noConfusion hm, fun hex => absurd hex hnex⟩

/-! ## `NIDAQ.accel_function`: helper lemmas -/

theorem linspace_length (a b : ℚ) (n : ℕ) : (linspace a b n).length = n := by
  unfold linspace
  by_cases h0 : n = 0
  · simp [h0]
  · by_cases h1 : n = 1
    · simp [h0, h1]
    · simp [h0, h1]

theorem linspace_head (a b : ℚ) (n : ℕ) (h : n ≠ 0) :
    (linspace a b n).head? = some a := by
  unfold linspace
  by_cases h1 : n = 1
  · simp [h, h1]
  · obtain ⟨m, rfl⟩ : ∃ m, n = m + 1 := ⟨n - 1, by omega⟩
    simp [h, h1, List.range_succ_eq_map]

theorem linspace_getLast (a b : ℚ) (n : ℕ) (h : 2 ≤ n) :
    (linspace a b n).getLast? = some b := by
  obtain ⟨m, rfl⟩ : ∃ m, n = m + 2 := ⟨n - 2, by omega⟩
  unfold linspace
  have h0 : m + 2 ≠ 0 := by omega
  have h1 : m + 2 ≠ 1 := by omega
  have h2 : List.range (m + 2) = List.range (m + 1) ++ [m + 1] :=
    List.range_succ (m + 1)
  rw [if_neg h0, if_neg h1, h2, List.map_append, List.map_singleton,
    List.getLast?_concat]
  have hne : ((m : ℚ) + 1) ≠ 0 := by positivity
  congr 1
  push_cast
  rw [show ((m : ℚ) + 2 - 1) = (m : ℚ) + 1 by ring,
    mul_div_assoc, div_self hne]
  ring

theorem drop_one_getLast (l : List ℚ) (h : 2 ≤ l.length) :
    (l.drop 1).getLast? = l.getLast? := by
  match l with
  | [] => simp at h
  | [x] => simp at h
  | x :: y :: tl => simp [List.getLast?_cons_cons]

/-- C8 counterexample: at `start = 0`, `end = 1`, `numpts = 1` the function
returns `[0]`: the length is `1 = 2*1 - 1` and the first element is `start`,
but the last element is `0`, not `end = 1` — `part2[1:]` is empty, so the
half-ramp that would land on `end` contributes nothing. -/
theorem spec_C8_counterexample :
    NIDAQ.accel_function 0 1 1 = [0] ∧
    (NIDAQ.accel_function 0 1 1).getLast? ≠ some 1 := by
  have h : NIDAQ.accel_function 0 1 1 = [0] := by
    norm_num [NIDAQ.accel_function, linspace]
  refine ⟨h, ?_⟩
  rw [h]
  simp

/-- C8 amended: when `start == end` the function returns the constant list
`[start]*numpts*2` (length `2*numpts`, every element `start`), for every
`numpts`.  When `start ≠ end` the result has length `2*numpts - 1` for every
`numpts` (natural-number truncation: length 0 at `numpts = 0`), its first
element is `start` whenever `numpts ≥ 1`, and its last element is `end`
whenever `numpts ≥ 2`; at `numpts = 1` the result is exactly the singleton
`[start]` — whose last element is `start`, not `end` (the counterexample
above) — and at `numpts = 0` it is the empty list. -/
theorem spec_C8 (s t : ℚ) (n : ℕ) :
    (s = t → NIDAQ.accel_function s t n = List.replicate (n * 2) s) ∧
    (s ≠ t → (NIDAQ.accel_function s t n).length = 2 * n - 1) ∧
    (s ≠ t → 1 ≤ n → (NIDAQ.accel_function s t n).head? = some s) ∧
    (s ≠ t → 2 ≤ n → (NIDAQ.accel_function s t n).getLast? = some t) ∧
    (s ≠ t → NIDAQ.accel_function s t 1 = [s]) ∧
    (s ≠ t → NIDAQ.accel_function s t 0 = []) := by
  refine ⟨fun h => ?_, fun hne => ?_, fun hne h1 => ?_, fun hne h2 => ?_,
    fun hne => ?_, fun hne => ?_⟩
  · simp [NIDAQ.accel_function, h]
  · simp only [NIDAQ.accel_function, if_neg hne]
    simp [linspace_length]
    omega
  · simp only [NIDAQ.accel_function, if_neg hne]
    rw [List.head?_append_of_ne_nil]
    · rw [List.head?_map, linspace_head s _ n (by omega)]
      simp
    · intro hnil
      have hlen := congrArg List.length hnil
      simp [linspace_length] at hlen
      omega
  · simp only [NIDAQ.accel_function, if_neg hne]
    rw [List.getLast?_append_of_ne_nil]
    · rw [drop_one_getLast _ (by simp [linspace_length]; omega),
        List.getLast?_map, linspace_getLast _ t n h2]
      simp
    · intro hnil
      have hlen := congrArg List.length hnil
      simp [linspace_length] at hlen
      omega
  · simp only [NIDAQ.accel_function, if_neg hne]
    norm_num [linspace]
  · simp only [NIDAQ.accel_function, if_neg hne]
    simp [linspace]

/-! ## `NIDAQ.send_receive`: helper lemmas -/

theorem store_get_append2 (st : Store) (a b : PyObj) (i : ℕ)
    (hi : i < st.length) :
    ((st ++ [a]) ++ [b]).get? i = st.get? i := by
  rw [List.get?_eq_getElem?, List.get?_eq_getElem?,
    List.getElem?_append_left (by simp; omega),
    List.getElem?_append_left hi]

theorem store_get_append1 (st : Store) (a : PyObj) (i : ℕ)
    (hi : i < st.length) :
    (st ++ [a]).get? i = st.get? i := by
  rw [List.get?_eq_getElem?, List.get?_eq_getElem?,
    List.getElem?_append_left hi]

theorem NIDAQ.srLoop_frame :
    ∀ (chans : List String) (st : Store) (dref m : ℕ) (st' : Store)
      (wd : List (String × List ℚ)),
      m ≤ dref → m ≤ st.length →
      NIDAQ.srLoop st dref chans = some (st', wd) →
      ∀ i < m, st'.get? i = st.get? i := by
  intro chans
  induction chans with
  | nil =>
    intro st dref m st' wd hmd hml h i him
    rw [NIDAQ.srLoop] at h
    simp only [Option.some.injEq, Prod.mk.injEq] at h
    obtain ⟨rfl, -⟩ := h
    rfl
  | cons ch rest ih =>
    intro st dref m st' wd hmd hml h i him
    rw [NIDAQ.srLoop] at h
    split at h
    all_goals try exact Option.noConfusion h
    split at h
    all_goals try exact Option.noConfusion h
    split at h
    all_goals try exact Option.noConfusion h
    simp only [Store.alloc] at h
    split at h
    all_goals try exact Option.noConfusion h
    rename_i entries hd r hle x xs hrv s2 wd2 hrec
    simp only [Option.some.injEq, Prod.mk.injEq] at h
    obtain ⟨rfl, -⟩ := h
    have hstep := ih _ dref m s2 wd2 hmd
      (by simp [List.length_set]; omega) hrec i him
    rw [hstep, List.get?_eq_getElem?, List.get?_eq_getElem?,
      List.getElem?_set_ne (by omega : dref ≠ i),
      List.getElem?_append_left (by simp; omega),
      List.getElem?_append_left (by omega)]

/-- C9: `NIDAQ.send_receive` leaves the caller's `orig_data` untouched.  In
the explicit-heap embedding: every object that existed in the store before
the call — in particular the caller's list, or dict and all the lists it
holds — still holds exactly the same value when the call returns.  The
duplicated final sample is appended only to fresh copies (`list(d)` and
`d + [d[-1]]` both allocate new objects), and the only in-place update,
`data[ch] = d`, targets the `data` dict freshly allocated by
`copy(orig_data)` or by the scalar-channel wrapping. -/
theorem spec_C9 (st : Store) (co : ChanOut) (orig : ℕ) (st' : Store)
    (dref : ℕ) (wd : List (String × List ℚ))
    (h : NIDAQ.send_receive st co orig = some (st', dref, wd)) :
    ∀ i < st.length, st'.get? i = st.get? i := by
  intro i hi
  rw [NIDAQ.send_receive] at h
  split at h
  all_goals try exact Option.noConfusion h
  rename_i v ho
  cases co with
  | scalar ch =>
    simp only [Store.alloc] at h
    split at h
    all_goals try exact Option.noConfusion h
    rename_i s2 wd2 hrec
    simp only [Option.some.injEq, Prod.mk.injEq] at h
    obtain ⟨rfl, -⟩ := h
    have := NIDAQ.srLoop_frame [ch] _ _ st.length s2 wd2
      (by simp) (by simp) hrec i hi
    rw [this, store_get_append2 st _ _ i hi]
  | many chs =>
    cases v with
    | list xs => exact Option.noConfusion h
    | dict entries =>
      simp only [Store.alloc] at h
      split at h
      · exact Option.noConfusion h
      · split at h
        all_goals try exact Option.noConfusion h
        rename_i s2 wd2 hrec
        simp only [Option.some.injEq, Prod.mk.injEq] at h
        obtain ⟨rfl, -⟩ := h
        have := NIDAQ.srLoop_frame chs _ _ st.length s2 wd2
          (by omega) (by simp) hrec i hi
        rw [this, store_get_append1 st _ i hi]

/-- C9 witness: one scalar-channel call on a store holding the caller's list
`[1, 2]` at address 0; afterwards address 0 still holds `[1, 2]` (the
duplicated sample lives only in the fresh objects at addresses 3 and 4). -/
theorem spec_C9_witness :
    ([PyObj.list [1, 2], PyObj.list [1, 2], PyObj.dict [("ao0", 4)],
        PyObj.list [1, 2], PyObj.list [1, 2, 2]] : Store).get? 0 =
      ([PyObj.list [1, 2]] : Store).get? 0 :=
  spec_C9 [PyObj.list [1, 2]] (.scalar "ao0") 0
    [PyObj.list [1, 2], PyObj.list [1, 2], PyObj.dict [("ao0", 4)],
      PyObj.list [1, 2], PyObj.list [1, 2, 2]] 2 [("ao0", [1, 2, 2])]
    (by rfl) 0 (by norm_num)

/-- C10: `Dataset.sanitize` is idempotent — `sanitize (sanitize d) =
sanitize d` for every input, so every value `sanitize` can return (numbers,
strings, lists, float-dtype numpy arrays, nested dicts of these, and the
stringified fallbacks) passes through a second `sanitize` unchanged. -/
theorem spec_C10 (d : PyData) :
    Dataset.sanitize (Dataset.sanitize d) = Dataset.sanitize d :=
  sanitize_idem_data d
